import Mathlib

/-!
Verification development for the snapuserd userspace COW block-device servicer
(`fs_mgr/libsnapshot/snapuserd.cpp`).

The definitions below are a shallow embedding of the C++ source: machine
integers become `Nat` (no arithmetic in the embedded code can overflow a
`u64` on the inputs considered), raw 4096-byte exception pages become lists
of 16-byte `DiskException` records, and the two merge-reconciliation loops
are instrumented to also return the list of exception-entry indices they
examined, so that in-bounds claims about buffer accesses can be stated.
Fatal `CHECK` assertions are modelled as a distinguished failure outcome.
-/

namespace Snapuserd

/-- Operation types of the internal COW format (`kCow*Op`). `Invalid`
stands for any other numeric tag, which the source rejects. -/
inductive CowOpType where
  | Replace
  | Copy
  | Zero
  | Label
  | Footer
  | Invalid
deriving DecidableEq, Repr

/-- One COW operation record (the fields of `CowOperation` that the
servicer reads: `type`, `new_block`, and `source` for copies). -/
structure CowOperation where
  type : CowOpType
  new_block : Nat
  source : Nat
deriving DecidableEq, Repr

/-- Kernel on-disk exception record: `struct disk_exception`
`{ u64 old_chunk; u64 new_chunk; }`, 16 bytes. -/
structure DiskException where
  old_chunk : Nat
  new_chunk : Nat
deriving DecidableEq, Repr

/-- BLOCK_SIZE = 4096 bytes (declared in `snapuserd.h`, fixed by the spec). -/
def BLOCK_SIZE : Nat := 4096

/-- SECTOR_SHIFT = 9 (512-byte sectors). -/
def SECTOR_SHIFT : Nat := 9

/-- CHUNK_SIZE = 8 sectors per 4096-byte chunk. -/
def CHUNK_SIZE : Nat := 8

/-- NUM_SNAPSHOT_HDR_CHUNKS = 1: chunk 0 holds the synthesized header. -/
def NUM_SNAPSHOT_HDR_CHUNKS : Nat := 1

/-- `exceptions_per_area_ = (CHUNK_SIZE << SECTOR_SHIFT) / sizeof(struct
disk_exception)` = 4096 / 16 = 256 (`ReadMetadata`). -/
def exceptions_per_area : Nat := (CHUNK_SIZE <<< SECTOR_SHIFT) / 16

/-- `stride = exceptions_per_area_ + 1` = 257: one metadata chunk followed
by 256 data chunks. -/
def STRIDE : Nat := exceptions_per_area + 1

/-- PAYLOAD_SIZE = 1 << 16 = 65536 bytes (`snapuserd.cpp`). -/
def PAYLOAD_SIZE : Nat := 1 <<< 16

/-- Modelled from the spec: the `dm_user_header` wire layout (§6.1 of the
spec: `seq u64, type u32, flags u32, sector u64, len u64`) is declared in
the repository's `snapuserd.h` / kernel headers, which are not under
`src/`; its size is 8+4+4+8+8 = 32 bytes. -/
def DM_USER_HEADER_SIZE : Nat := 32

/-- `Snapuserd::IsChunkIdMetadata`: a chunk id is a metadata chunk iff its
remainder modulo the stride equals NUM_SNAPSHOT_HDR_CHUNKS. -/
def IsChunkIdMetadata (chunk : Nat) : Bool :=
  chunk % STRIDE == NUM_SNAPSHOT_HDR_CHUNKS

/-- `Snapuserd::GetNextAllocatableChunkId`: advance by one and skip a
metadata chunk id. -/
def GetNextAllocatableChunkId (chunk : Nat) : Nat :=
  if IsChunkIdMetadata (chunk + 1) then chunk + 2 else chunk + 1

/-- `SectorToChunk`: `sector >> CHUNK_SHIFT` (divide by 8). -/
def SectorToChunk (sector : Nat) : Nat := sector / CHUNK_SIZE

/-- `ChunkToSector`: `chunk << CHUNK_SHIFT` (multiply by 8). -/
def ChunkToSector (chunk : Nat) : Nat := chunk * CHUNK_SIZE

/-- True for the three mergeable operation types (`kCowReplaceOp`,
`kCowZeroOp`, `kCowCopyOp`). -/
def isMergeable : CowOpType → Bool
  | .Replace => true
  | .Zero => true
  | .Copy => true
  | _ => false

/-- True for the op types skipped by the metadata build and merge advance
(`kCowFooterOp`, `kCowLabelOp`). -/
def isSkipped : CowOpType → Bool
  | .Footer => true
  | .Label => true
  | _ => false

/-- True exactly for `kCowCopyOp`. -/
def isCopy : CowOpType → Bool
  | .Copy => true
  | _ => false

/-- The all-zero exception record that terminates a partially filled area. -/
def zeroDE : DiskException := ⟨0, 0⟩

/-- A fully zeroed 4096-byte area (256 zero exception records). -/
def zeroArea : List DiskException := List.replicate exceptions_per_area zeroDE

/-- A partially written area page: the entries written so far followed by
the zero bytes the zero-initialized buffer retains. -/
def padArea (l : List DiskException) : List DiskException :=
  l ++ List.replicate (exceptions_per_area - l.length) zeroDE

/-- View of a stored area page as a total function on entry indices;
indices beyond the stored entries read as zero bytes. -/
def areaFun (a : List DiskException) (i : Nat) : DiskException :=
  a.getD i zeroDE

/-! ## Metadata build (`Snapuserd::ReadMetadata`) -/

/-- State carried through `ReadMetadata`'s loop over the reverse op
iterator: `next_free`, `prev_copy_op`, `metadata_found`, the current area
buffer (`de_ptr`/`offset`/`num_ops`, as the list of exceptions written so
far), the vector of completed areas `vec_`, and the chunk map (kept in
assignment order). -/
structure MetaState where
  next_free : Nat
  prev_copy_op : Bool
  metadata_found : Bool
  cur : List DiskException
  vec : List (List DiskException)
  chunk_map : List (Nat × CowOperation)
deriving DecidableEq, Repr

/-- The chunk id assigned to `op` by the loop body: `next_free`, bumped by
`GetNextAllocatableChunkId` first when the op is a copy or the previous
mergeable op was a copy. -/
def stepNf (op : CowOperation) (s : MetaState) : Nat :=
  if isCopy op.type || s.prev_copy_op then GetNextAllocatableChunkId s.next_free
  else s.next_free

/-- One mergeable-op iteration of `ReadMetadata`'s loop: construct the
disk exception, record the chunk-map entry, roll the area over when it
fills (pushing an extra zero area when the iterator is exhausted right at
the fill), and advance `next_free` past the next metadata chunk.
`isLast` is `cowop_riter_->Done()` after `Next()`. -/
def metaStep (op : CowOperation) (isLast : Bool) (s : MetaState) : MetaState :=
  if (s.cur ++ [(⟨op.new_block, stepNf op s⟩ : DiskException)]).length = exceptions_per_area then
    { next_free := GetNextAllocatableChunkId (stepNf op s)
      prev_copy_op := isCopy op.type
      metadata_found := true
      cur := []
      vec := s.vec ++ [s.cur ++ [⟨op.new_block, stepNf op s⟩]] ++
        (if isLast then [zeroArea] else [])
      chunk_map := s.chunk_map ++ [(stepNf op s, op)] }
  else
    { next_free := GetNextAllocatableChunkId (stepNf op s)
      prev_copy_op := isCopy op.type
      metadata_found := true
      cur := s.cur ++ [⟨op.new_block, stepNf op s⟩]
      vec := s.vec
      chunk_map := s.chunk_map ++ [(stepNf op s, op)] }

/-- The `while (!cowop_riter_->Done())` loop of `ReadMetadata`, over the
list of ops the reverse iterator yields. An op that is neither mergeable
nor skipped aborts the build (`return false`). -/
def readMetadataLoop : List CowOperation → MetaState → Option MetaState
  | [], s => some s
  | op :: rest, s =>
    if isSkipped op.type then readMetadataLoop rest s
    else if isMergeable op.type then readMetadataLoop rest (metaStep op rest.isEmpty s)
    else none

/-- Initial state of the metadata build: `next_free` starts at
NUM_SNAPSHOT_HDR_CHUNKS + 1 = 2, nothing seen, empty zero-filled area. -/
def initMetaState : MetaState :=
  { next_free := NUM_SNAPSHOT_HDR_CHUNKS + 1
    prev_copy_op := false
    metadata_found := false
    cur := []
    vec := []
    chunk_map := [] }

/-- `Snapuserd::ReadMetadata` on the reverse-iterator op list: run the
loop, then push the partially filled (or never-filled) area when
`num_ops || !metadata_found`. -/
def ReadMetadata (rops : List CowOperation) : Option MetaState :=
  match readMetadataLoop rops initMetaState with
  | none => none
  | some s =>
    if s.cur.length ≠ 0 ∨ s.metadata_found = false then
      some { s with vec := s.vec ++ [padArea s.cur] }
    else some s

/-- `chunk_map_` lookup (`std::map::find`). -/
def lookupCM (cm : List (Nat × CowOperation)) (c : Nat) : Option CowOperation :=
  (cm.find? (fun p => p.1 == c)).map (·.2)

/-- The disk exception a chunk-map entry was written from:
`old_chunk = op.new_block`, `new_chunk =` assigned chunk id. -/
def toDE (p : Nat × CowOperation) : DiskException :=
  ⟨p.2.new_block, p.1⟩

/-! ## Data-read dispatcher (`Snapuserd::ReadData`) -/

/-- Outcome of a `ReadData` call. `CHECK` failures are distinguished from
the `return false` error paths: `nullOpAbort` is `CHECK(cow_op != nullptr)`,
`copyAbort` is `CHECK(read_size == 0)` after a copy, `boundaryAbort` is
`CHECK(read_size == 0)` at an area boundary, `alignAbort` is the alignment
check on entry; `opError` is the unknown-op-type `return false` and
`ioError` a failed backing-device / COW-payload read. -/
inductive RDResult where
  | ok
  | opError
  | ioError
  | nullOpAbort (c : Nat)
  | copyAbort
  | boundaryAbort
  | alignAbort
deriving DecidableEq, Repr

/-- The `while (read_size > 0)` loop of `ReadData`, counted in BLOCK_SIZE
blocks. `devOk c` tells whether the external read performed while
dispatching the op at chunk `c` (base device for a copy, COW data for a
replace) succeeds. -/
def readDataGo (devOk : Nat → Bool) (cm : List (Nat × CowOperation)) :
    Nat → Nat → RDResult
  | _, 0 => .ok
  | ck, n + 1 =>
    match lookupCM cm ck with
    | none => .nullOpAbort ck
    | some op =>
      if !isMergeable op.type then .opError
      else if (op.type == .Replace || op.type == .Copy) && !devOk ck then .ioError
      else
        if isCopy op.type && n != 0 then .copyAbort
        else if (ck + 1) % STRIDE = NUM_SNAPSHOT_HDR_CHUNKS then
          if n ≠ 0 then .boundaryAbort else .ok
        else readDataGo devOk cm (ck + 1) n

/-- `Snapuserd::ReadData(chunk, size)`: check 4K alignment, then dispatch
block by block. -/
def ReadData (devOk : Nat → Bool) (cm : List (Nat × CowOperation))
    (chunk size : Nat) : RDResult :=
  if size % BLOCK_SIZE ≠ 0 then .alignAbort
  else readDataGo devOk cm chunk (size / BLOCK_SIZE)

/-! ## Metadata-page reads (`ReadDiskExceptions` / `ZerofillDiskExceptions`) -/

/-- `Snapuserd::ZerofillDiskExceptions(read_size)`: reject reads longer
than one area, else produce a zero-filled area page. -/
def ZerofillDiskExceptions (read_size : Nat) : Option (List DiskException) :=
  if read_size > exceptions_per_area * 16 then none
  else some zeroArea

/-- `Snapuserd::ReadDiskExceptions(chunk, read_size)`: convert the chunk id
to an area index; in range, copy the whole 4096-byte area into the payload
(rejecting `read_size` larger than an area); out of range, zero-fill. -/
def ReadDiskExceptions (vec : List (List DiskException)) (chunk read_size : Nat) :
    Option (List DiskException) :=
  if h : chunk / STRIDE < vec.length then
    if read_size > exceptions_per_area * 16 then none
    else some (vec.get ⟨chunk / STRIDE, h⟩)
  else ZerofillDiskExceptions read_size

/-! ## Merge reconciliation -/

/-- Outcome of one of the reconciliation phases, carrying the list of
exception-entry indices the phase examined: `ok` is normal completion,
`err` is `GetNumberOfMergedOps`'s `return -1`, `checkFail` a failed
`CHECK`. -/
inductive PhaseResult (α : Type) where
  | ok : α → List Nat → PhaseResult α
  | err : List Nat → PhaseResult α
  | checkFail : List Nat → PhaseResult α

/-- The indices examined by a phase, on every outcome. -/
def examinedOf : PhaseResult α → List Nat
  | .ok _ l => l
  | .err l => l
  | .checkFail l => l

/-- The merged-op count of a successful `GetNumberOfMergedOps` run. -/
def phaseOkCount : PhaseResult (Nat × (Nat → DiskException)) → Option Nat
  | .ok (m, _) _ => some m
  | _ => none

/-- The `-1` outcome of `GetNumberOfMergedOps`, if taken. -/
def phaseErr? : PhaseResult α → Option (List Nat)
  | .err l => some l
  | _ => none

/-- The `while (*unmerged_exceptions <= exceptions_per_area_)` loop of
`GetMergeStartOffset`. The fuel is `257 - unmerged`, so an iteration runs
exactly while `unmerged ≤ 256`. Each iteration examines entry `unmerged`
of both buffers; a nonzero kernel entry must match the stored entry and is
counted as unmerged, a zero `old_chunk` with nonzero `new_chunk` fails a
`CHECK`. -/
def mergeStartGo (merged cow : Nat → DiskException) :
    Nat → Nat → List Nat → PhaseResult Nat
  | 0, unmerged, acc => .ok unmerged acc
  | fuel + 1, unmerged, acc =>
    let md := merged unmerged
    let cd := cow unmerged
    let acc' := acc ++ [unmerged]
    if md.old_chunk ≠ 0 then
      if md.new_chunk ≠ 0 ∧ md.old_chunk = cd.old_chunk ∧ md.new_chunk = cd.new_chunk then
        mergeStartGo merged cow fuel (unmerged + 1) acc'
      else .checkFail acc'
    else
      if md.new_chunk = 0 then .ok unmerged acc'
      else .checkFail acc'

/-- `Snapuserd::GetMergeStartOffset`: walk the two buffers in parallel to
the merge frontier, then `CHECK(!(*unmerged_exceptions ==
exceptions_per_area_))`. The returned number is both the unmerged count and
the entry index of the frontier (`offset / 16`). -/
def GetMergeStartOffset (merged cow : Nat → DiskException) : PhaseResult Nat :=
  match mergeStartGo merged cow (exceptions_per_area + 1) 0 [] with
  | .ok u acc => if u = exceptions_per_area then .checkFail acc else .ok u acc
  | r => r

/-- The `while ((unmerged_exceptions + merged_ops_cur_iter) <=
exceptions_per_area_)` loop of `GetNumberOfMergedOps`. `u` is the unmerged
count (and the frontier index), `m` the merged count so far; each
iteration examines entry `u + m`. A merged stored entry is zeroed in
place, an all-zero stored entry terminates, and a stored entry with
`old_chunk != 0 && new_chunk == 0` is the invalid-metadata `return -1`. -/
def numMergedGo (merged : Nat → DiskException) (u : Nat) :
    Nat → Nat → (Nat → DiskException) → List Nat →
    PhaseResult (Nat × (Nat → DiskException))
  | 0, m, cow, acc => .ok (m, cow) acc
  | fuel + 1, m, cow, acc =>
    let i := u + m
    let md := merged i
    let cd := cow i
    let acc' := acc ++ [i]
    if md.new_chunk = 0 ∧ md.old_chunk = 0 then
      if cd.new_chunk ≠ 0 then
        numMergedGo merged u fuel (m + 1) (fun j => if j = i then zeroDE else cow j) acc'
      else if cd.old_chunk = 0 then .ok (m, cow) acc'
      else .err acc'
    else .checkFail acc'

/-- `Snapuserd::GetNumberOfMergedOps` with `offset = u * 16` and
`unmerged_exceptions = u`, also returning the stored-area buffer after its
in-place zeroing. -/
def GetNumberOfMergedOps (merged cow : Nat → DiskException) (u : Nat) :
    PhaseResult (Nat × (Nat → DiskException)) :=
  numMergedGo merged u (exceptions_per_area + 1 - u) 0 cow []

/-- Outcome of `AdvanceMergedOps`: advance to `ok`, the unknown-op-type
`return false`, or the failed `CHECK(merged_ops_cur_iter == 0)` at
iterator exhaustion. -/
inductive AdvResult where
  | ok (rest : List CowOperation)
  | fail
  | abort
deriving DecidableEq, Repr

/-- `Snapuserd::AdvanceMergedOps`: consume `m` mergeable ops from the
forward iterator, skipping labels and footers; at exhaustion
`CHECK(merged_ops_cur_iter == 0)`. -/
def advanceMergedOps : List CowOperation → Nat → AdvResult
  | [], m => if m = 0 then .ok [] else .abort
  | op :: rest, m =>
    if m = 0 then .ok (op :: rest)
    else if isSkipped op.type then advanceMergedOps rest m
    else if isMergeable op.type then advanceMergedOps rest (m - 1)
    else .fail

/-- The daemon state the embedded operations touch: the area vector
`vec_`, the chunk map, the forward iterator's remaining ops
(`cowop_iter_`), the in-memory COW header's merge counter, and,
modelled from the spec (§6.3, `CowReader`/`CowWriter` are not under
`src/`): the reader's in-memory merge-progress tracker
(`UpdateMergeProgress`) and the writer's durable merge counter
(`CommitMerge`). -/
structure SnapState where
  vec : List (List DiskException)
  chunk_map : List (Nat × CowOperation)
  fwdOps : List CowOperation
  readerHeaderMergeOps : Nat
  mergeProgress : Nat
  committedMergeOps : Nat
  metadata_read_done : Bool
deriving DecidableEq, Repr

/-- Outcome of `ProcessMergeComplete`: success, `return false` with the
(possibly already partially zeroed) state, or a fatal `CHECK`. -/
inductive PMCResult where
  | ok (s : SnapState)
  | fail (s : SnapState)
  | abort
deriving DecidableEq, Repr

/-- `Snapuserd::ProcessMergeComplete(chunk, buffer)`: map the chunk id to
an area index (`CHECK` in range), locate the merge frontier, count and
zero the newly merged exceptions, `CHECK(merged_ops_cur_iter > 0)` (which
the `-1` error return of `GetNumberOfMergedOps` also hits), advance the
forward iterator, bump a local copy of the COW header's `num_merge_ops`,
and report progress through `UpdateMergeProgress` and `CommitMerge`. -/
def ProcessMergeComplete (s : SnapState) (chunk : Nat)
    (buffer : Nat → DiskException) : PMCResult :=
  if h : chunk / STRIDE < s.vec.length then
    match GetMergeStartOffset buffer (areaFun (s.vec.get ⟨chunk / STRIDE, h⟩)) with
    | .checkFail _ => .abort
    | .err _ => .abort
    | .ok u _ =>
      match GetNumberOfMergedOps buffer (areaFun (s.vec.get ⟨chunk / STRIDE, h⟩)) u with
      | .checkFail _ => .abort
      | .err _ => .abort
      | .ok (m, cow') _ =>
        if m = 0 then .abort
        else
          match advanceMergedOps s.fwdOps m with
          | .abort => .abort
          | .fail => .fail { s with
              vec := s.vec.set (chunk / STRIDE) ((List.range exceptions_per_area).map cow') }
          | .ok rest =>
            .ok { s with
              vec := s.vec.set (chunk / STRIDE) ((List.range exceptions_per_area).map cow')
              fwdOps := rest
              mergeProgress := s.mergeProgress + m
              committedMergeOps := s.committedMergeOps + m }
  else .abort

/-! ## BufferSink -/

/-- The two size fields of `BufferSink` (`buffer_size_`, `buffer_offset_`);
the payload pointer it hands out is `payload_base + buffer_offset_`. -/
structure BufferSinkState where
  buffer_size : Nat
  buffer_offset : Nat
deriving DecidableEq, Repr

/-- `BufferSink::GetPayloadBuffer(size)`: null when
`buffer_size_ - buffer_offset_ < size`, else the payload region starting
at the current offset. -/
def GetPayloadBuffer (b : BufferSinkState) (size : Nat) : Option Nat :=
  if b.buffer_size - b.buffer_offset < size then none
  else some b.buffer_offset

/-- The sink as sized by `InitCowDevice`:
`sizeof(struct dm_user_header) + PAYLOAD_SIZE` bytes, offset reset. -/
def initBufferSink : BufferSinkState :=
  { buffer_size := DM_USER_HEADER_SIZE + PAYLOAD_SIZE, buffer_offset := 0 }

/-! ## Request loop (`Snapuserd::Run`) -/

/-- Modelled from the spec: the request codes (§6.1) live in the kernel
`dm-user` header, not under `src/`; `MAP_READ = 0`, `MAP_WRITE = 1`. -/
def DM_USER_REQ_MAP_READ : Nat := 0

/-- Modelled from the spec: see `DM_USER_REQ_MAP_READ`. -/
def DM_USER_REQ_MAP_WRITE : Nat := 1

/-- Response codes written back into the header's `type` field. -/
inductive RespType where
  | RESP_SUCCESS
  | RESP_ERROR
deriving DecidableEq, Repr

/-- The request header read from the control device. -/
structure DmUserHeader where
  seq : Nat
  type : Nat
  flags : Nat
  sector : Nat
  len : Nat
deriving DecidableEq, Repr

/-- External-IO oracle for one `Run` iteration: whether the `n`-th
`WriteDmUserPayload` succeeds, whether `ReadDmUserPayload` succeeds, the
exception page a merge-complete write carries, and whether the device read
behind each dispatched block succeeds. -/
structure RunOracle where
  writeOk : Nat → Bool
  readPayloadOk : Bool
  wbuffer : Nat → DiskException
  devOk : Nat → Bool

/-- The `do { ... } while (remaining_size)` loop of the
`DM_USER_REQ_MAP_READ` arm: serve up to PAYLOAD_SIZE per frame, answer
sector 0 with the synthesized kernel COW header, metadata chunks from the
area vector, data chunks through `ReadData`; component errors flip the
response to `RESP_ERROR`, a control-device write failure ends `Run` with
`false`, and a failed `CHECK` is `none`. -/
def runReadLoop (o : RunOracle) (s : SnapState) (sector : Nat) :
    Nat → Nat → Nat → List (RespType × Nat) → Option (List (RespType × Nat) × Bool)
  | remaining, offset, widx, acc =>
    let read_size := min PAYLOAD_SIZE remaining
    let rtype? : Option RespType :=
      if sector = 0 then
        if s.metadata_read_done = true ∧ read_size = BLOCK_SIZE ∧
            (GetPayloadBuffer initBufferSink BLOCK_SIZE).isSome then
          some .RESP_SUCCESS
        else none
      else
        let chunk := SectorToChunk sector
        if lookupCM s.chunk_map chunk = none then
          match ReadDiskExceptions s.vec chunk read_size with
          | none => some .RESP_ERROR
          | some _ => some .RESP_SUCCESS
        else
          match ReadData o.devOk s.chunk_map (chunk + offset / BLOCK_SIZE) read_size with
          | .ok => some .RESP_SUCCESS
          | .opError => some .RESP_ERROR
          | .ioError => some .RESP_ERROR
          | _ => none
    match rtype? with
    | none => none
    | some rtype =>
      if o.writeOk widx then
        if remaining - read_size = 0 then some (acc ++ [(rtype, read_size)], true)
        else runReadLoop o s sector (remaining - read_size) (offset + read_size)
          (widx + 1) (acc ++ [(rtype, read_size)])
      else some (acc, false)
termination_by remaining _ _ _ => remaining
decreasing_by
  simp only [PAYLOAD_SIZE] at *
  omega

/-- The `DM_USER_REQ_MAP_WRITE` arm of `Run`: sector 0 is a flush
(`CHECK(len == 0)`, success, empty payload); otherwise the single
BLOCK_SIZE merge-complete page is read and handed to
`ProcessMergeComplete`, and the response carries no payload. -/
def runWrite (o : RunOracle) (s : SnapState) (h : DmUserHeader) :
    Option (SnapState × List (RespType × Nat) × Bool) :=
  if h.sector = 0 then
    if h.len = 0 then
      if o.writeOk 0 then some (s, [(.RESP_SUCCESS, 0)], true)
      else some (s, [], false)
    else none
  else
    let read_size := min PAYLOAD_SIZE h.len
    if read_size = BLOCK_SIZE then
      let chunk := SectorToChunk h.sector
      if lookupCM s.chunk_map chunk = none then
        if (GetPayloadBuffer initBufferSink read_size).isSome then
          if o.readPayloadOk then
            match ProcessMergeComplete s chunk o.wbuffer with
            | .abort => none
            | .fail s1 =>
              if o.writeOk 0 then some (s1, [(.RESP_ERROR, 0)], true)
              else some (s1, [], false)
            | .ok s1 =>
              if o.writeOk 0 then some (s1, [(.RESP_SUCCESS, 0)], true)
              else some (s1, [], false)
          else
            if o.writeOk 0 then some (s, [(.RESP_ERROR, 0)], true)
            else some (s, [], false)
        else none
      else none
    else none

/-- One iteration of `Snapuserd::Run` after the header has been read:
dispatch on `header->type`. The switch has no default arm, so any other
request type performs no work, writes nothing, and returns `true`. The
result is the state afterwards, the responses written (type and payload
size), and `Run`'s return value; `none` is a fatal `CHECK`. -/
def Run (o : RunOracle) (s : SnapState) (h : DmUserHeader) :
    Option (SnapState × List (RespType × Nat) × Bool) :=
  if h.type = DM_USER_REQ_MAP_READ then
    (runReadLoop o s h.sector h.len 0 0 []).map (fun r => (s, r))
  else if h.type = DM_USER_REQ_MAP_WRITE then
    runWrite o s h
  else some (s, [], true)

end Snapuserd

namespace Snapuserd

/-! ## Concrete instances used by the evaluation theorems -/

/-- A fully populated stored area: 256 live exceptions, every `new_chunk`
nonzero (as the metadata build produces for 256 mergeable ops). -/
def c1FullArea : List DiskException := (List.range 256).map (fun k => ⟨k + 1, k + 2⟩)

/-- A stored area whose first entry is inconsistent
(`old_chunk = 7, new_chunk = 0`). -/
def c2Area : List DiskException := ⟨7, 0⟩ :: List.replicate 255 zeroDE

/-- Daemon state holding `c2Area` as area 0. -/
def c2State : SnapState := ⟨[c2Area], [], [], 0, 0, 0, true⟩

/-- An all-succeeding IO oracle delivering an all-zero write payload. -/
def zeroOracle : RunOracle := ⟨fun _ => true, true, fun _ => zeroDE, fun _ => true⟩

/-- C1: the claim states that neither reconciliation phase ever examines an
exception entry at index `EXCEPTIONS_PER_AREA` (256) or beyond. It fails:
both loop conditions use `<=` rather than `<`. On a fully populated stored
area with an all-zero kernel buffer (every exception merged in one cycle,
the scenario of spec test E4 at full load), `GetNumberOfMergedOps` runs
until `unmerged + merged_now = 256` still satisfies the loop condition and
examines entry index 256 — 16 bytes past the 4096-byte page — and then
completes normally with 256 merged ops; symmetrically,
`GetMergeStartOffset` on a fully unmerged buffer examines index 256. -/
theorem C1_merge_loops_examine_index_256 :
    phaseOkCount (GetNumberOfMergedOps (fun _ => zeroDE) (areaFun c1FullArea) 0)
        = some 256 ∧
    256 ∈ examinedOf (GetNumberOfMergedOps (fun _ => zeroDE) (areaFun c1FullArea) 0) ∧
    256 ∈ examinedOf (GetMergeStartOffset (areaFun c1FullArea) (areaFun c1FullArea)) := by
  refine ⟨?_, ?_, ?_⟩
  · set_option maxRecDepth 100000 in decide
  · set_option maxRecDepth 100000 in decide
  · set_option maxRecDepth 100000 in decide

/-- C2: the claim states that an inconsistent stored entry found during
merge reconciliation (`old_chunk != 0 && new_chunk == 0` at the frontier)
is answered with `RESP_ERROR` and the request loop continues. The code
disagrees: `GetNumberOfMergedOps` does return its `-1` error value, but
`ProcessMergeComplete` immediately executes
`CHECK(merged_ops_cur_iter > 0)` on it, a fatal assertion — so the write
request is never answered and the daemon aborts (`Run` dies instead of
responding), contradicting the claim (and the spec's RequestError
classification, which the error return was evidently written for). -/
theorem C2_inconsistency_aborts_daemon :
    phaseErr? (GetNumberOfMergedOps (fun _ => zeroDE) (areaFun c2Area) 0) = some [0] ∧
    ProcessMergeComplete c2State 1 (fun _ => zeroDE) = .abort ∧
    Run zeroOracle c2State ⟨0, DM_USER_REQ_MAP_WRITE, 0, 8, BLOCK_SIZE⟩ = none := by
  refine ⟨by decide, by decide, by decide⟩

/-- C7: the claim states `payload_buffer(n)` is null exactly when
`n > PAYLOAD_SIZE − offset`. The code compares against the whole
allocation (`buffer_size_ = sizeof(dm_user_header) + PAYLOAD_SIZE`)
without subtracting the header, so with the offset at the end of the
payload region (`offset = PAYLOAD_SIZE`) a request for 1 byte satisfies
`1 > PAYLOAD_SIZE − offset = 0` yet still returns a non-null region —
one that starts at `payload_base + PAYLOAD_SIZE`, past the payload. -/
theorem C7_payload_check_ignores_header :
    GetPayloadBuffer { buffer_size := DM_USER_HEADER_SIZE + PAYLOAD_SIZE,
                       buffer_offset := PAYLOAD_SIZE } 1 = some PAYLOAD_SIZE ∧
    PAYLOAD_SIZE - PAYLOAD_SIZE < 1 := by
  refine ⟨by decide, by decide⟩

end Snapuserd

namespace Snapuserd

/-! ## Invariants of the chunk-id assignment -/

/-- Relation between chunk-map entries in assignment order: keys strictly
increase, and two keys differ by at least 2 whenever either entry is a
copy. -/
def Rcm (p q : Nat × CowOperation) : Prop :=
  p.1 < q.1 ∧ ((isCopy p.2.type = true ∨ isCopy q.2.type = true) → p.1 + 2 ≤ q.1)

/-- Invariant of the metadata-build state: the chunk map is `Rcm`-ordered,
every assigned key is below `next_free`, and a copy's key is at least two
below the next assignable id unless `prev_copy_op` still forces a skip. -/
def MetaInv (s : MetaState) : Prop :=
  List.Pairwise Rcm s.chunk_map ∧
  ∀ p ∈ s.chunk_map, p.1 < s.next_free ∧
    (isCopy p.2.type = true → p.1 + 1 < s.next_free ∨ s.prev_copy_op = true)

theorem le_nextAllocatable (c : Nat) : c + 1 ≤ GetNextAllocatableChunkId c := by
  unfold GetNextAllocatableChunkId
  split <;> omega

theorem metaStep_chunk_map (op : CowOperation) (b : Bool) (s : MetaState) :
    (metaStep op b s).chunk_map = s.chunk_map ++ [(stepNf op s, op)] := by
  unfold metaStep
  split <;> rfl

theorem metaStep_next_free (op : CowOperation) (b : Bool) (s : MetaState) :
    (metaStep op b s).next_free = GetNextAllocatableChunkId (stepNf op s) := by
  unfold metaStep
  split <;> rfl

theorem metaStep_prev_copy (op : CowOperation) (b : Bool) (s : MetaState) :
    (metaStep op b s).prev_copy_op = isCopy op.type := by
  unfold metaStep
  split <;> rfl

theorem stepNf_ge (op : CowOperation) (s : MetaState) : s.next_free ≤ stepNf op s := by
  unfold stepNf
  split
  · exact Nat.le_of_succ_le (le_nextAllocatable s.next_free)
  · exact Nat.le_refl _

theorem stepNf_copy (op : CowOperation) (s : MetaState)
    (h : isCopy op.type = true ∨ s.prev_copy_op = true) :
    s.next_free + 1 ≤ stepNf op s := by
  have hc : (isCopy op.type || s.prev_copy_op) = true := by
    cases h with
    | inl h => simp [h]
    | inr h => simp [h]
  unfold stepNf
  rw [hc]
  simp only [if_true]
  exact le_nextAllocatable s.next_free

theorem metaInv_step (op : CowOperation) (b : Bool) (s : MetaState)
    (h : MetaInv s) : MetaInv (metaStep op b s) := by
  obtain ⟨hpw, hbound⟩ := h
  have hge := stepNf_ge op s
  have hnf := le_nextAllocatable (stepNf op s)
  constructor
  · rw [metaStep_chunk_map]
    rw [List.pairwise_append]
    refine ⟨hpw, List.pairwise_singleton _ _, ?_⟩
    intro p hp q hq
    rw [List.mem_singleton] at hq
    subst hq
    obtain ⟨hlt, hcopy⟩ := hbound p hp
    constructor
    · exact Nat.lt_of_lt_of_le hlt hge
    · intro hor
      cases hor with
      | inl hc =>
        rcases hcopy hc with h1 | h1
        · omega
        · have := stepNf_copy op s (Or.inr h1)
          omega
      | inr hc =>
        have := stepNf_copy op s (Or.inl hc)
        omega
  · intro p hp
    rw [metaStep_chunk_map] at hp
    rw [metaStep_next_free, metaStep_prev_copy]
    rw [List.mem_append, List.mem_singleton] at hp
    cases hp with
    | inl hp =>
      obtain ⟨hlt, _⟩ := hbound p hp
      constructor
      · omega
      · intro _
        left
        omega
    | inr hp =>
      subst hp
      constructor
      · omega
      · intro hc
        right
        exact hc

theorem metaInv_loop : ∀ (ops : List CowOperation) (s s' : MetaState),
    readMetadataLoop ops s = some s' → MetaInv s → MetaInv s' := by
  intro ops
  induction ops with
  | nil =>
    intro s s' h hi
    simp only [readMetadataLoop] at h
    cases h
    exact hi
  | cons op rest ih =>
    intro s s' h hi
    simp only [readMetadataLoop] at h
    split at h
    · exact ih s s' h hi
    · split at h
      · exact ih _ s' h (metaInv_step op rest.isEmpty s hi)
      · cases h

theorem readMetadata_inv (rops : List CowOperation) (s : MetaState)
    (h : ReadMetadata rops = some s) : MetaInv s := by
  unfold ReadMetadata at h
  have hinit : MetaInv initMetaState := by
    constructor
    · exact List.Pairwise.nil
    · intro p hp
      cases hp
  cases hloop : readMetadataLoop rops initMetaState with
  | none => rw [hloop] at h; cases h
  | some s0 =>
    rw [hloop] at h
    have hs0 := metaInv_loop rops initMetaState s0 hloop hinit
    dsimp only at h
    by_cases hc : s0.cur.length ≠ 0 ∨ s0.metadata_found = false
    · rw [if_pos hc] at h
      cases h
      exact hs0
    · rw [if_neg hc] at h
      cases h
      exact hs0

theorem pairwise_mem_rel {α : Type} {R : α → α → Prop} :
    ∀ {l : List α}, l.Pairwise R → ∀ {a b}, a ∈ l → b ∈ l → a = b ∨ R a b ∨ R b a := by
  intro l hl
  induction hl with
  | nil => intro a b ha _; cases ha
  | cons hhead _ ih =>
    intro a b ha hb
    rw [List.mem_cons] at ha hb
    cases ha with
    | inl ha =>
      cases hb with
      | inl hb => subst ha; subst hb; left; rfl
      | inr hb => subst ha; right; left; exact hhead b hb
    | inr ha =>
      cases hb with
      | inl hb => subst hb; right; right; exact hhead a ha
      | inr hb => exact ih ha hb

/-- C3: in the chunk map built by `ReadMetadata`, no two keys `a < b` that
both map to copy operations are contiguous (`b = a + 1`): a copy, or the
op assigned right after one, always takes an extra
`GetNextAllocatableChunkId` step first, so keys around a copy differ by at
least 2, and keys in general strictly increase. -/
theorem C3_no_contiguous_copies (rops : List CowOperation) (s : MetaState)
    (h : ReadMetadata rops = some s) :
    ∀ a b opa opb, (a, opa) ∈ s.chunk_map → (b, opb) ∈ s.chunk_map →
      a < b → isCopy opa.type = true → isCopy opb.type = true → b ≠ a + 1 := by
  intro a b opa opb ha hb hab hca hcb
  obtain ⟨hpw, _⟩ := readMetadata_inv rops s h
  rcases pairwise_mem_rel hpw ha hb with heq | hr | hr
  · cases heq
    omega
  · have := hr.2 (Or.inl hca)
    simp only at this
    omega
  · have := hr.1
    simp only at this
    omega

def copOp : CowOperation := ⟨.Copy, 20, 30⟩
def zOp : CowOperation := ⟨.Zero, 5, 0⟩
def rOp : CowOperation := ⟨.Replace, 10, 0⟩

theorem C3_witness : (5 : Nat) ≠ 3 + 1 :=
  C3_no_contiguous_copies [copOp, copOp]
    ((ReadMetadata [copOp, copOp]).get (by decide))
    (Option.some_get (by decide)).symm
    3 5 copOp copOp (by decide) (by decide) (by decide) (by decide) (by decide)

end Snapuserd

namespace Snapuserd

/-! ## The copy rule of the data-read dispatcher -/

theorem lookupCM_mem (cm : List (Nat × CowOperation)) (c : Nat) (op : CowOperation)
    (h : lookupCM cm c = some op) : (c, op) ∈ cm := by
  unfold lookupCM at h
  cases hf : cm.find? (fun p => p.1 == c) with
  | none => rw [hf] at h; cases h
  | some p =>
    obtain ⟨p1, p2⟩ := p
    rw [hf] at h
    have hmem := List.mem_of_find?_eq_some hf
    have hpred := List.find?_some hf
    simp only [Option.map_some'] at h
    cases h
    simp only [Nat.beq_eq_true_eq] at hpred
    subst hpred
    exact hmem

/-- A copy's assigned key is never directly followed by another assigned
key. -/
theorem copy_succ_not_mem (rops : List CowOperation) (s : MetaState)
    (h : ReadMetadata rops = some s) (c : Nat) (op op' : CowOperation)
    (hc : (c, op) ∈ s.chunk_map) (hcopy : isCopy op.type = true)
    (hc' : (c + 1, op') ∈ s.chunk_map) : False := by
  obtain ⟨hpw, _⟩ := readMetadata_inv rops s h
  rcases pairwise_mem_rel hpw hc hc' with heq | hr | hr
  · cases heq
  · have := hr.2 (Or.inl hcopy)
    simp only at this
    omega
  · have := hr.1
    simp only at this
    omega

theorem readDataGo_no_copyAbort (cm : List (Nat × CowOperation))
    (hcs : ∀ c op op', (c, op) ∈ cm → isCopy op.type = true → (c + 1, op') ∈ cm → False)
    (devOk : Nat → Bool) :
    ∀ n chunk, (∀ k, k < n → (lookupCM cm (chunk + k)).isSome = true) →
      readDataGo devOk cm chunk n ≠ .copyAbort := by
  intro n
  induction n with
  | zero =>
    intro chunk _ h
    simp only [readDataGo] at h
    cases h
  | succ n ih =>
    intro chunk hall h
    have h0 : (lookupCM cm (chunk + 0)).isSome = true := hall 0 (Nat.succ_pos n)
    rw [Nat.add_zero] at h0
    cases hl : lookupCM cm chunk with
    | none => rw [hl] at h0; cases h0
    | some op =>
      simp only [readDataGo, hl] at h
      split at h
      · cases h
      · split at h
        · cases h
        · split at h
          · -- the copy assertion fired: derive a contradiction
            rename_i hcond
            simp only [Bool.and_eq_true, bne_iff_ne, ne_eq] at hcond
            obtain ⟨hcopy, hn⟩ := hcond
            have h1 : (lookupCM cm (chunk + 1)).isSome = true := by
              apply hall 1
              omega
            rw [Option.isSome_iff_exists] at h1
            obtain ⟨op', hop'⟩ := h1
            exact hcs chunk op op' (lookupCM_mem cm chunk op hl) hcopy
              (lookupCM_mem cm (chunk + 1) op' hop')
          · split at h
            · split at h
              · cases h
              · cases h
            · refine ih (chunk + 1) ?_ h
              intro k hk
              have := hall (k + 1) (by omega)
              rw [show chunk + (k + 1) = chunk + 1 + k by omega] at this
              exact this

/-- C4: in the data-read dispatcher, a copy operation is always the only
op of its request: for every BLOCK_SIZE-aligned read whose looked-up chunk
ids are all present in the chunk map built by `ReadMetadata`, the
`CHECK(read_size == 0)` after dispatching a copy never fails, because a
copy's chunk id is never contiguous with any other assigned id, so a
request that continued past a copy would leave the map. -/
theorem C4_copy_is_alone (rops : List CowOperation) (s : MetaState)
    (h : ReadMetadata rops = some s) (devOk : Nat → Bool) (chunk size : Nat)
    (hall : ∀ k, k < size / BLOCK_SIZE → (lookupCM s.chunk_map (chunk + k)).isSome = true) :
    ReadData devOk s.chunk_map chunk size ≠ .copyAbort := by
  unfold ReadData
  split
  · intro hc
    cases hc
  · exact readDataGo_no_copyAbort s.chunk_map
      (fun c op op' hc hcopy hc' => copy_succ_not_mem rops s h c op op' hc hcopy hc')
      devOk (size / BLOCK_SIZE) chunk hall

theorem C4_witness : ReadData (fun _ => true)
    (((ReadMetadata [rOp, zOp]).get (by decide)).chunk_map) 2 8192 ≠ .copyAbort :=
  C4_copy_is_alone [rOp, zOp] ((ReadMetadata [rOp, zOp]).get (by decide))
    (Option.some_get (by decide)).symm (fun _ => true) 2 8192 (by decide)

/-! ## Reverse assignment order -/

theorem loop_cm_values : ∀ (ops : List CowOperation) (s s' : MetaState),
    readMetadataLoop ops s = some s' →
    s'.chunk_map.map Prod.snd
      = s.chunk_map.map Prod.snd ++ ops.filter (fun op => isMergeable op.type) := by
  intro ops
  induction ops with
  | nil =>
    intro s s' h
    cases h
    simp [List.filter]
  | cons op rest ih =>
    intro s s' h
    simp only [readMetadataLoop] at h
    split at h
    · rename_i hsk
      have hnm : isMergeable op.type = false := by
        cases htype : op.type <;> simp [htype, isSkipped, isMergeable] at hsk ⊢
      rw [ih s s' h, List.filter_cons_of_neg (by simp [hnm])]
    · split at h
      · rename_i hsk hm
        rw [ih _ s' h, metaStep_chunk_map, List.filter_cons_of_pos (by simp [hm])]
        simp [List.map_append, List.append_assoc]
      · cases h

theorem readMetadata_cm_values (rops : List CowOperation) (s : MetaState)
    (h : ReadMetadata rops = some s) :
    s.chunk_map.map Prod.snd = rops.filter (fun op => isMergeable op.type) := by
  unfold ReadMetadata at h
  cases hloop : readMetadataLoop rops initMetaState with
  | none => rw [hloop] at h; cases h
  | some s0 =>
    rw [hloop] at h
    dsimp only at h
    have hv := loop_cm_values rops initMetaState s0 hloop
    simp only [initMetaState, List.map_nil, List.nil_append] at hv
    by_cases hc : s0.cur.length ≠ 0 ∨ s0.metadata_found = false
    · rw [if_pos hc] at h
      cases h
      exact hv
    · rw [if_neg hc] at h
      cases h
      exact hv

/-- C5: listing the chunk map built from a forward op stream `fwd` (whose
reverse iterator yields `fwd.reverse`) in ascending chunk-id order — which
is exactly its assignment order, since assigned keys strictly increase —
yields the mergeable COW operations in reverse of forward-iteration order,
with labels and footers skipped. -/
theorem C5_reverse_assignment (fwd : List CowOperation) (s : MetaState)
    (h : ReadMetadata fwd.reverse = some s) :
    s.chunk_map.map Prod.snd = (fwd.filter (fun op => isMergeable op.type)).reverse ∧
    (s.chunk_map.map Prod.fst).Pairwise (· < ·) := by
  constructor
  · rw [readMetadata_cm_values _ s h]
    exact List.filter_reverse _ fwd
  · obtain ⟨hpw, _⟩ := readMetadata_inv _ s h
    rw [List.pairwise_map]
    exact hpw.imp (fun hr => hr.1)

theorem C5_witness :
    ((ReadMetadata [rOp, zOp].reverse).get (by decide)).chunk_map.map Prod.snd
        = ([rOp, zOp].filter (fun op => isMergeable op.type)).reverse ∧
    (((ReadMetadata [rOp, zOp].reverse).get (by decide)).chunk_map.map Prod.fst).Pairwise
      (· < ·) :=
  C5_reverse_assignment [rOp, zOp] _ (Option.some_get (by decide)).symm

end Snapuserd

namespace Snapuserd

/-! ## Metadata-page read semantics -/

/-- C8: a metadata-chunk read larger than one 4096-byte area is rejected
as an error in both the in-range and the prefetch branch; an in-range area
index copies the whole stored area into the payload; an out-of-range index
(kernel prefetch past the end) yields an all-zero payload; and a read
request never changes the daemon state, so the same metadata-chunk read
issued twice returns identical bytes. -/
theorem C8_metadata_read (vec : List (List DiskException)) (chunk read_size : Nat) :
    (read_size > exceptions_per_area * 16 →
      ReadDiskExceptions vec chunk read_size = none) ∧
    (∀ h : chunk / STRIDE < vec.length, read_size ≤ exceptions_per_area * 16 →
      ReadDiskExceptions vec chunk read_size = some (vec.get ⟨chunk / STRIDE, h⟩)) ∧
    (vec.length ≤ chunk / STRIDE → read_size ≤ exceptions_per_area * 16 →
      ReadDiskExceptions vec chunk read_size = some zeroArea) ∧
    (∀ (o : RunOracle) (s : SnapState) (hdr : DmUserHeader) r,
      hdr.type = DM_USER_REQ_MAP_READ → Run o s hdr = some r → r.1 = s) := by
  refine ⟨?_, ?_, ?_, ?_⟩
  · intro hbig
    unfold ReadDiskExceptions ZerofillDiskExceptions
    by_cases h : chunk / STRIDE < vec.length
    · rw [dif_pos h, if_pos hbig]
    · rw [dif_neg h, if_pos hbig]
  · intro h hle
    unfold ReadDiskExceptions
    rw [dif_pos h, if_neg (by omega)]
  · intro h hle
    unfold ReadDiskExceptions ZerofillDiskExceptions
    rw [dif_neg (by omega), if_neg (by omega)]
  · intro o s hdr r htype hrun
    unfold Run at hrun
    rw [if_pos htype] at hrun
    cases hloop : runReadLoop o s hdr.sector hdr.len 0 0 [] with
    | none => rw [hloop] at hrun; cases hrun
    | some r0 =>
      rw [hloop] at hrun
      cases hrun
      rfl

theorem C8_witness : ReadDiskExceptions [] 1 BLOCK_SIZE = some zeroArea :=
  (C8_metadata_read [] 1 BLOCK_SIZE).2.2.1 (by decide) (by decide)

/-! ## The request dispatch switch -/

/-- C9: a request whose header type is neither `DM_USER_REQ_MAP_READ` nor
`DM_USER_REQ_MAP_WRITE` falls through the dispatch switch, which has no
default arm: the iteration writes no response, changes no state, and
returns success. -/
theorem C9_unknown_type_silently_dropped (o : RunOracle) (s : SnapState)
    (h : DmUserHeader) (h1 : h.type ≠ DM_USER_REQ_MAP_READ)
    (h2 : h.type ≠ DM_USER_REQ_MAP_WRITE) :
    Run o s h = some (s, [], true) := by
  unfold Run
  rw [if_neg h1, if_neg h2]

theorem C9_witness :
    Run zeroOracle c2State ⟨0, 2, 0, 16, BLOCK_SIZE⟩ = some (c2State, [], true) :=
  C9_unknown_type_silently_dropped zeroOracle c2State ⟨0, 2, 0, 16, BLOCK_SIZE⟩
    (by decide) (by decide)

/-! ## Frame conditions of merge completion -/

theorem numMergedGo_ok_char (merged : Nat → DiskException) (u : Nat) :
    ∀ (fuel m : Nat) (cow : Nat → DiskException) (acc : List Nat)
      (mf : Nat) (cow' : Nat → DiskException) (acc' : List Nat),
      numMergedGo merged u fuel m cow acc = .ok (mf, cow') acc' →
      m ≤ mf ∧ ∀ j, cow' j = if u + m ≤ j ∧ j < u + mf then zeroDE else cow j := by
  intro fuel
  induction fuel with
  | zero =>
    intro m cow acc mf cow' acc' h
    simp only [numMergedGo] at h
    cases h
    refine ⟨Nat.le_refl m, fun j => ?_⟩
    rw [if_neg (by omega)]
  | succ fuel ih =>
    intro m cow acc mf cow' acc' h
    simp only [numMergedGo] at h
    split at h
    · split at h
      · obtain ⟨hle, hchar⟩ := ih (m + 1) _ _ mf cow' acc' h
        refine ⟨by omega, fun j => ?_⟩
        rw [hchar j]
        split_ifs <;> first | rfl | (exfalso; omega)
      · split at h
        · cases h
          refine ⟨Nat.le_refl _, fun j => ?_⟩
          rw [if_neg (by omega)]
        · cases h
    · cases h

theorem skipped_not_mergeable {t : CowOpType} (h : isSkipped t = true) :
    isMergeable t = false := by
  cases t <;> simp [isSkipped, isMergeable] at h ⊢

theorem advanceMergedOps_ok_char : ∀ (ops : List CowOperation) (m : Nat)
    (rest : List CowOperation), advanceMergedOps ops m = .ok rest →
    ∃ pre, ops = pre ++ rest ∧ (pre.filter (fun op => isMergeable op.type)).length = m := by
  intro ops
  induction ops with
  | nil =>
    intro m rest h
    simp only [advanceMergedOps] at h
    split at h
    · rename_i hm
      cases h
      exact ⟨[], rfl, by simp [hm]⟩
    · cases h
  | cons op rest' ih =>
    intro m rest h
    simp only [advanceMergedOps] at h
    split at h
    · rename_i hm
      cases h
      exact ⟨[], rfl, by simp [hm]⟩
    · split at h
      · rename_i hm hsk
        obtain ⟨pre, heq, hcount⟩ := ih m rest h
        refine ⟨op :: pre, by rw [List.cons_append, heq], ?_⟩
        rw [List.filter_cons_of_neg (by simp [skipped_not_mergeable hsk])]
        exact hcount
      · split at h
        · rename_i hm hsk hmg
          obtain ⟨pre, heq, hcount⟩ := ih (m - 1) rest h
          refine ⟨op :: pre, by rw [List.cons_append, heq], ?_⟩
          rw [List.filter_cons_of_pos (by simp [hmg])]
          simp only [List.length_cons, hcount]
          omega
        · cases h

/-- C10: a successful merge-complete write for metadata chunk `c` changes
nothing except the single stored area at index `c / STRIDE` (whose newly
merged entries, the `m` entries from the merge frontier on, are zeroed in
place), the forward iterator (advanced past the `m` corresponding
mergeable ops, skipping labels and footers), and the merged count reported
through `UpdateMergeProgress` and `CommitMerge`; the `num_merge_ops`
increment is applied to a local copy of the `CowHeader`, so the reader's
header state is untouched, and the chunk map and every other area are
unchanged. -/
theorem C10_merge_complete_frame (s : SnapState) (chunk : Nat)
    (buffer : Nat → DiskException) (s' : SnapState)
    (h : ProcessMergeComplete s chunk buffer = .ok s') :
    s'.chunk_map = s.chunk_map ∧
    s'.readerHeaderMergeOps = s.readerHeaderMergeOps ∧
    s'.metadata_read_done = s.metadata_read_done ∧
    s'.vec.length = s.vec.length ∧
    (∀ j, j ≠ chunk / STRIDE → s'.vec[j]? = s.vec[j]?) ∧
    ∃ (m u : Nat) (pre : List CowOperation) (area : List DiskException),
      0 < m ∧
      s.vec[chunk / STRIDE]? = some area ∧
      s'.vec[chunk / STRIDE]? = some ((List.range exceptions_per_area).map
        (fun j => if u ≤ j ∧ j < u + m then zeroDE else areaFun area j)) ∧
      s.fwdOps = pre ++ s'.fwdOps ∧
      (pre.filter (fun op => isMergeable op.type)).length = m ∧
      s'.mergeProgress = s.mergeProgress + m ∧
      s'.committedMergeOps = s.committedMergeOps + m := by
  unfold ProcessMergeComplete at h
  split at h
  case isFalse => cases h
  case isTrue hlt =>
    split at h
    case h_1 => cases h
    case h_2 => cases h
    case h_3 u lA hA =>
      split at h
      case h_1 => cases h
      case h_2 => cases h
      case h_3 m cow' lB hB =>
        split at h
        case isTrue => cases h
        case isFalse hm =>
          split at h
          case h_1 => cases h
          case h_2 => cases h
          case h_3 rest hAdv =>
            cases h
            obtain ⟨pre, hpre, hcount⟩ := advanceMergedOps_ok_char s.fwdOps m rest hAdv
            have hBchar := numMergedGo_ok_char buffer u
              (exceptions_per_area + 1 - u) 0 (areaFun (s.vec.get ⟨chunk / STRIDE, hlt⟩)) []
              m cow' lB hB
            obtain ⟨_, hchar⟩ := hBchar
            refine ⟨rfl, rfl, rfl, by simp, ?_, m, u, pre,
              s.vec.get ⟨chunk / STRIDE, hlt⟩, by omega, ?_, ?_, hpre, hcount, rfl, rfl⟩
            · intro j hj
              exact List.getElem?_set_ne (Ne.symm hj)
            · simp [List.getElem?_eq_getElem hlt]
            · rw [List.getElem?_set_self (by simpa using hlt)]
              refine congrArg some (List.map_congr_left fun j _ => ?_)
              rw [hchar j]
              simp
  
end Snapuserd

namespace Snapuserd

/-- A one-exception stored area for the merge-completion witness. -/
def c10Area : List DiskException := ⟨5, 2⟩ :: List.replicate 255 zeroDE

/-- Daemon state holding `c10Area` as area 0, with the matching chunk map
and one pending forward op. -/
def c10State : SnapState := ⟨[c10Area], [(2, zOp)], [zOp], 0, 0, 0, true⟩

/-- Successful-result projection of `ProcessMergeComplete`. -/
def pmcOk? : PMCResult → Option SnapState
  | .ok s => some s
  | _ => none

theorem C10_witness :
    (pmcOk? (ProcessMergeComplete c10State 1 (fun _ => zeroDE))).map
      SnapState.chunk_map = some c10State.chunk_map := by
  have hv : (pmcOk? (ProcessMergeComplete c10State 1 (fun _ => zeroDE))).isSome = true := by
    decide
  cases hpmc : ProcessMergeComplete c10State 1 (fun _ => zeroDE) with
  | abort => rw [hpmc] at hv; simp [pmcOk?] at hv
  | fail s1 => rw [hpmc] at hv; simp [pmcOk?] at hv
  | ok s1 =>
    simp only [pmcOk?, Option.map_some']
    exact congrArg some (C10_merge_complete_frame c10State 1 (fun _ => zeroDE) s1 hpmc).1

end Snapuserd

namespace Snapuserd

/-! ## Area-count and area-content characterization of the metadata build -/

/-- Number of mergeable ops in an op stream. -/
def countM (ops : List CowOperation) : Nat :=
  (ops.filter (fun op => isMergeable op.type)).length

/-- Whether the op stream ends with a mergeable op (so that
`cowop_riter_->Done()` holds right after the final mergeable op is
consumed). -/
def lastMergeable (ops : List CowOperation) : Bool :=
  match ops.getLast? with
  | some op => isMergeable op.type
  | none => false

/-- Condition under which the loop pushes the extra all-zero terminator
area: starting with `c` entries already in the current area, the stream's
mergeable ops fill an area exactly, at least one is consumed, and the
iterator is exhausted right at the final fill. -/
def TermCond (c : Nat) (ops : List CowOperation) : Prop :=
  lastMergeable ops = true ∧ exceptions_per_area ∣ (c + countM ops) ∧ 0 < countM ops

instance (c : Nat) (ops : List CowOperation) : Decidable (TermCond c ops) := by
  unfold TermCond
  infer_instance

theorem epa_eq : exceptions_per_area = 256 := by decide

theorem countM_nil : countM [] = 0 := rfl

theorem countM_cons_skip {op : CowOperation} (rest : List CowOperation)
    (h : isMergeable op.type = false) : countM (op :: rest) = countM rest := by
  unfold countM
  rw [List.filter_cons_of_neg (by simp [h])]

theorem countM_cons_merge {op : CowOperation} (rest : List CowOperation)
    (h : isMergeable op.type = true) : countM (op :: rest) = countM rest + 1 := by
  unfold countM
  rw [List.filter_cons_of_pos (by simp [h])]
  rfl

theorem lastMergeable_cons (op : CowOperation) (rest : List CowOperation)
    (h : rest ≠ []) : lastMergeable (op :: rest) = lastMergeable rest := by
  cases rest with
  | nil => exact absurd rfl h
  | cons b l => simp [lastMergeable, List.getLast?_cons_cons]

theorem lastMergeable_single (op : CowOperation) :
    lastMergeable [op] = isMergeable op.type := by
  simp [lastMergeable, List.getLast?_singleton]

theorem lastMergeable_of_countM_zero (ops : List CowOperation)
    (h : countM ops = 0) : lastMergeable ops = false := by
  unfold countM at h
  rw [List.length_eq_zero, List.filter_eq_nil_iff] at h
  unfold lastMergeable
  cases hl : ops.getLast? with
  | none => rfl
  | some op =>
    have hmem : op ∈ ops := by
      have hx : op ∈ ops.getLast? := by rw [hl]; rfl
      obtain ⟨hne, heq⟩ := List.mem_getLast?_eq_getLast hx
      rw [heq]
      exact List.getLast_mem hne
    have := h op hmem
    simp only [Bool.not_eq_true] at this
    exact this

theorem termCond_of_countM_zero (c : Nat) (ops : List CowOperation)
    (h : countM ops = 0) : ¬ TermCond c ops := by
  rintro ⟨_, _, h3⟩
  omega

theorem termCond_cons_skip (c : Nat) (op : CowOperation) (rest : List CowOperation)
    (hsk : isSkipped op.type = true) : TermCond c (op :: rest) ↔ TermCond c rest := by
  have hcnt := countM_cons_skip rest (skipped_not_mergeable hsk)
  by_cases hrest : rest = []
  · subst hrest
    have h1 := termCond_of_countM_zero c (op :: []) (by rw [hcnt, countM_nil])
    have h2 := termCond_of_countM_zero c ([] : List CowOperation) countM_nil
    exact ⟨fun h => absurd h h1, fun h => absurd h h2⟩
  · unfold TermCond
    rw [lastMergeable_cons op rest hrest, hcnt]

theorem termCond_cons_nofill (c : Nat) (op : CowOperation) (rest : List CowOperation)
    (hm : isMergeable op.type = true) (h1 : c + 1 < exceptions_per_area) :
    TermCond c (op :: rest) ↔ TermCond (c + 1) rest := by
  have hcnt := countM_cons_merge rest hm
  rw [epa_eq] at h1
  by_cases h0 : countM rest = 0
  · constructor
    · rintro ⟨_, hb, _⟩
      rw [hcnt, h0, epa_eq] at hb
      omega
    · rintro ⟨_, _, hc⟩
      omega
  · by_cases hrest : rest = []
    · subst hrest
      exact absurd countM_nil h0
    · unfold TermCond
      rw [lastMergeable_cons op rest hrest, hcnt, epa_eq]
      constructor
      · rintro ⟨ha, hb, _⟩
        exact ⟨ha, by omega, by omega⟩
      · rintro ⟨ha, hb, hc⟩
        exact ⟨ha, by omega, by omega⟩

theorem termCond_fill_nil (c : Nat) (op : CowOperation)
    (hm : isMergeable op.type = true) (hfill : c + 1 = exceptions_per_area) :
    TermCond c [op] := by
  refine ⟨by rw [lastMergeable_single, hm], ?_, ?_⟩
  · rw [countM_cons_merge [] hm, countM_nil,
      show c + (0 + 1) = exceptions_per_area from by omega]
  · rw [countM_cons_merge [] hm]
    omega

theorem termCond_cons_fill (c : Nat) (op : CowOperation) (rest : List CowOperation)
    (hm : isMergeable op.type = true) (hfill : c + 1 = exceptions_per_area)
    (hrest : rest ≠ []) : TermCond c (op :: rest) ↔ TermCond 0 rest := by
  have hcnt := countM_cons_merge rest hm
  rw [epa_eq] at hfill
  by_cases h0 : countM rest = 0
  · constructor
    · rintro ⟨ha, _, _⟩
      rw [lastMergeable_cons op rest hrest, lastMergeable_of_countM_zero rest h0] at ha
      cases ha
    · rintro ⟨_, _, hc⟩
      omega
  · unfold TermCond
    rw [lastMergeable_cons op rest hrest, hcnt, epa_eq]
    constructor
    · rintro ⟨ha, hb, _⟩
      exact ⟨ha, by omega, by omega⟩
    · rintro ⟨ha, hb, hc⟩
      exact ⟨ha, by omega, by omega⟩

end Snapuserd

namespace Snapuserd

/-- Structure of the metadata-build loop: it extends the chunk map with
exactly the mergeable ops in stream order, lays their disk exceptions out
as full areas (`core`) plus the current partial area, pushes the extra
all-zero terminator exactly under `TermCond`, and sets `metadata_found`
iff an op was consumed. -/
theorem readMetadataLoop_struct :
    ∀ (ops : List CowOperation) (s s' : MetaState),
      readMetadataLoop ops s = some s' →
      s.cur.length < exceptions_per_area →
      ∃ (cm' : List (Nat × CowOperation)) (core : List (List DiskException)),
        s'.chunk_map = s.chunk_map ++ cm' ∧
        cm'.map Prod.snd = ops.filter (fun op => isMergeable op.type) ∧
        s'.vec = s.vec ++ core ++ (if TermCond s.cur.length ops then [zeroArea] else []) ∧
        core.join ++ s'.cur = s.cur ++ cm'.map toDE ∧
        (∀ a ∈ core, a.length = exceptions_per_area) ∧
        s'.cur.length < exceptions_per_area ∧
        s'.metadata_found = (s.metadata_found || decide (0 < countM ops)) := by
  intro ops
  induction ops with
  | nil =>
    intro s s' h hc
    cases h
    refine ⟨[], [], by simp, by simp, ?_, by simp, by simp, hc, ?_⟩
    · rw [if_neg (termCond_of_countM_zero _ _ countM_nil)]
      simp
    · simp [countM_nil]
  | cons op rest ih =>
    intro s s' h hc
    simp only [readMetadataLoop] at h
    split at h
    case isTrue hsk =>
      obtain ⟨cm', core, g1, g2, g3, g4, g5, g6, g7⟩ := ih s s' h hc
      have hnm := skipped_not_mergeable hsk
      refine ⟨cm', core, g1, ?_, ?_, g4, g5, g6, ?_⟩
      · rw [List.filter_cons_of_neg (by simp [hnm])]
        exact g2
      · rw [if_congr (termCond_cons_skip s.cur.length op rest hsk) rfl rfl]
        exact g3
      · rw [g7]
        congr 1
        exact decide_eq_decide.mpr (by rw [countM_cons_skip rest hnm])
    case isFalse hsk =>
      split at h
      case isFalse hm => cases h
      case isTrue hm =>
        by_cases hfill :
            (s.cur ++ [(⟨op.new_block, stepNf op s⟩ : DiskException)]).length
              = exceptions_per_area
        · -- the area fills at this op
          have hfillc : s.cur.length + 1 = exceptions_per_area := by
            simpa using hfill
          unfold metaStep at h
          rw [if_pos hfill] at h
          by_cases hrest : rest = []
          · subst hrest
            simp only [List.isEmpty_nil, if_true] at h
            simp only [readMetadataLoop] at h
            cases h
            refine ⟨[(stepNf op s, op)],
              [s.cur ++ [(⟨op.new_block, stepNf op s⟩ : DiskException)]],
              rfl, by rw [List.filter_cons_of_pos (by simp [hm]), List.filter_nil]; rfl,
              ?_, ?_, ?_, ?_, ?_⟩
            · rw [if_pos (termCond_fill_nil s.cur.length op hm hfillc)]
            · simp [toDE]
            · intro a ha
              rw [List.mem_singleton] at ha
              subst ha
              exact hfill
            · simp [epa_eq]
            · simp [countM_cons_merge [] hm]
          · have hne : rest.isEmpty = false := by
              simpa [List.isEmpty_iff] using hrest
            rw [hne] at h
            simp only [Bool.false_eq_true, if_false, List.append_nil] at h
            obtain ⟨cm1, core1, g1, g2, g3, g4, g5, g6, g7⟩ :=
              ih _ s' h (by simp [epa_eq])
            simp only [List.length_nil] at g3
            refine ⟨(stepNf op s, op) :: cm1,
              (s.cur ++ [(⟨op.new_block, stepNf op s⟩ : DiskException)]) :: core1,
              ?_, ?_, ?_, ?_, ?_, g6, ?_⟩
            · rw [g1]
              simp
            · rw [List.filter_cons_of_pos (by simp [hm])]
              simp [g2]
            · rw [g3, if_congr (termCond_cons_fill s.cur.length op rest hm hfillc hrest)
                rfl rfl]
              simp
            · simp only [List.join_cons, List.append_assoc, g4]
              simp [toDE]
            · intro a ha
              rw [List.mem_cons] at ha
              cases ha with
              | inl ha => subst ha; exact hfill
              | inr ha => exact g5 a ha
            · rw [g7]
              simp [countM_cons_merge rest hm]
        · -- no fill
          have hlt : s.cur.length + 1 < exceptions_per_area := by
            rcases Nat.lt_or_ge (s.cur.length + 1) exceptions_per_area with h' | h'
            · exact h'
            · exfalso
              apply hfill
              have : s.cur.length + 1 ≤ exceptions_per_area := by omega
              simpa using Nat.le_antisymm this h'
          unfold metaStep at h
          rw [if_neg hfill] at h
          obtain ⟨cm1, core1, g1, g2, g3, g4, g5, g6, g7⟩ :=
            ih _ s' h (by simpa using hlt)
          simp only [List.length_append, List.length_singleton] at g3
          refine ⟨(stepNf op s, op) :: cm1, core1, ?_, ?_, ?_, ?_, g5, g6, ?_⟩
          · rw [g1]
            simp
          · rw [List.filter_cons_of_pos (by simp [hm])]
            simp [g2]
          · rw [g3, if_congr (termCond_cons_nofill s.cur.length op rest hm hlt) rfl rfl]
          · rw [g4]
            simp [toDE]
          · rw [g7]
            simp [countM_cons_merge rest hm]

end Snapuserd

namespace Snapuserd

theorem join_length_uniform (core : List (List DiskException))
    (h : ∀ a ∈ core, a.length = exceptions_per_area) :
    core.join.length = exceptions_per_area * core.length := by
  induction core with
  | nil => simp
  | cons a core ih =>
    simp only [List.join_cons, List.length_append, List.length_cons]
    rw [h a (List.mem_cons_self a core), ih (fun b hb => h b (List.mem_cons_of_mem a hb))]
    ring

theorem join_chunks (core : List (List DiskException)) (tail : List DiskException)
    (hlen : ∀ a ∈ core, a.length = exceptions_per_area) :
    ∀ k (hk : k < core.length),
      core.get ⟨k, hk⟩
        = ((core.join ++ tail).drop (exceptions_per_area * k)).take exceptions_per_area := by
  induction core with
  | nil =>
    intro k hk
    exact absurd hk (Nat.not_lt_zero k)
  | cons a core ih =>
    intro k hk
    have ha : a.length = exceptions_per_area := hlen a (List.mem_cons_self a core)
    cases k with
    | zero =>
      show a = _
      rw [Nat.mul_zero, List.drop_zero,
        show (a :: core).join ++ tail = a ++ (core.join ++ tail) from by simp,
        ← ha, List.take_left]
    | succ k =>
      have hih := ih (fun b hb => hlen b (List.mem_cons_of_mem a hb)) k
        (by simpa using hk)
      show core.get ⟨k, _⟩ = _
      rw [show (a :: core).join ++ tail = a ++ (core.join ++ tail) from by simp,
        show exceptions_per_area * (k + 1) = a.length + exceptions_per_area * k from by
          rw [ha]; ring,
        List.drop_append]
      exact hih

theorem padArea_nil : padArea [] = zeroArea := rfl

theorem padArea_of_full (a : List DiskException) (h : a.length = exceptions_per_area) :
    padArea a = a := by
  simp [padArea, h]

end Snapuserd

namespace Snapuserd

theorem layout_get (core : List (List DiskException)) (tail des : List DiskException)
    (hlen : ∀ a ∈ core, a.length = exceptions_per_area)
    (htail : tail.length < exceptions_per_area)
    (hdes : des = core.join ++ tail) :
    (∀ k, k < (core ++ [padArea tail]).length →
      (core ++ [padArea tail])[k]? =
        some (padArea ((des.drop (exceptions_per_area * k)).take exceptions_per_area))) ∧
    (∀ k, k < core.length →
      core[k]? =
        some (padArea ((des.drop (exceptions_per_area * k)).take exceptions_per_area))) := by
  subst hdes
  have hB : ∀ k, (hk : k < core.length) →
      core[k]? = some (padArea (((core.join ++ tail).drop
        (exceptions_per_area * k)).take exceptions_per_area)) := by
    intro k hk
    rw [List.getElem?_eq_getElem hk]
    have hchunk := join_chunks core tail hlen k hk
    rw [← hchunk, padArea_of_full _ (hlen _ (List.get_mem core k hk))]
    rw [List.get_eq_getElem]
  refine ⟨?_, hB⟩
  intro k hk
  simp only [List.length_append, List.length_singleton] at hk
  rcases Nat.lt_or_ge k core.length with hklt | hkge
  · rw [List.getElem?_append_left hklt]
    exact hB k hklt
  · have hkeq : k = core.length := by omega
    subst hkeq
    rw [List.getElem?_append_right (Nat.le_refl _)]
    rw [Nat.sub_self]
    rw [show exceptions_per_area * core.length = core.join.length from
      (join_length_uniform core hlen).symm]
    rw [List.drop_left, List.take_of_length_le (Nat.le_of_lt htail)]
    rfl

/-- C6 (amended): on a stream with `n` mergeable ops, the area vector
holds one zero-filled area when `n = 0`; `ceil(n / 256)` areas when
`n > 0`, plus one extra all-zero terminator area exactly when `n` is a
nonzero multiple of 256 and the reverse stream ends with a mergeable op
(the iterator is exhausted right at an area fill); and the `k`-th area
always holds the `k`-th batch of up to 256 exceptions, zero-padded. -/
theorem C6_area_vector (rops : List CowOperation) (s : MetaState)
    (h : ReadMetadata rops = some s) :
    s.vec.length = (if countM rops = 0 then 1
      else (countM rops + (exceptions_per_area - 1)) / exceptions_per_area +
        (if exceptions_per_area ∣ countM rops ∧ lastMergeable rops = true
         then 1 else 0)) ∧
    (∀ k, k < s.vec.length →
      s.vec[k]? = some (padArea (((s.chunk_map.map toDE).drop
        (exceptions_per_area * k)).take exceptions_per_area))) := by
  unfold ReadMetadata at h
  cases hloop : readMetadataLoop rops initMetaState with
  | none => rw [hloop] at h; cases h
  | some s0 =>
    rw [hloop] at h
    dsimp only at h
    obtain ⟨cm', core, g1, g2, g3, g4, g5, g6, g7⟩ :=
      readMetadataLoop_struct rops initMetaState s0 hloop (by simp [initMetaState, epa_eq])
    simp only [initMetaState, List.nil_append, List.length_nil, Bool.false_or]
      at g1 g3 g4 g7
    have hcm'len : cm'.length = countM rops := by
      have h2 := congrArg List.length g2
      simpa [countM] using h2
    have hjoinlen := join_length_uniform core g5
    have hlen0 : exceptions_per_area * core.length + s0.cur.length = countM rops := by
      have h4 := congrArg List.length g4
      simp only [List.length_append, List.length_map] at h4
      rw [hjoinlen, hcm'len] at h4
      exact h4
    by_cases hm0 : countM rops = 0
    · -- no mergeable op at all: a single zero-filled area
      have hfound : s0.metadata_found = false := by rw [g7]; simp [hm0]
      rw [if_pos (Or.inr hfound)] at h
      cases h
      have hfilter : rops.filter (fun op => isMergeable op.type) = [] := by
        unfold countM at hm0
        exact List.length_eq_zero.mp hm0
      have hcm' : cm' = [] := by
        rw [hfilter] at g2
        exact List.map_eq_nil.mp g2
      have hnil : core.join ++ s0.cur = [] := by
        rw [g4, hcm']
        rfl
      rw [List.append_eq_nil] at hnil
      have hcore : core = [] := by
        rw [hnil.1] at hjoinlen
        rw [epa_eq] at hjoinlen
        simp only [List.length_nil] at hjoinlen
        exact List.length_eq_zero.mp (by omega)
      have hvec0 : s0.vec = [] := by
        rw [g3, if_neg (termCond_of_countM_zero _ _ hm0), hcore]
        rfl
      constructor
      · show (s0.vec ++ [padArea s0.cur]).length = _
        rw [hvec0, if_pos hm0]
        rfl
      · intro k hk
        show (s0.vec ++ [padArea s0.cur])[k]? = some (padArea
          (((s0.chunk_map.map toDE).drop (exceptions_per_area * k)).take
            exceptions_per_area))
        rw [hvec0, hnil.2, g1, hcm']
        have hk1 : k < 1 := by
          have hk2 : k < (s0.vec ++ [padArea s0.cur]).length := hk
          rw [hvec0, hnil.2] at hk2
          simpa using hk2
        have hk0 : k = 0 := by omega
        subst hk0
        simp [padArea_nil]
    · -- at least one mergeable op
      have hmpos : 0 < countM rops := Nat.pos_of_ne_zero hm0
      have hfound : s0.metadata_found = true := by rw [g7]; simp [hmpos]
      by_cases hc0 : s0.cur.length = 0
      · -- the last area filled exactly: no final push
        rw [if_neg (by push_neg; exact ⟨hc0, by simp [hfound]⟩)] at h
        cases h
        have hcur : s.cur = [] := List.length_eq_zero.mp hc0
        have hdvd : exceptions_per_area ∣ countM rops := ⟨core.length, by omega⟩
        have hdes : cm'.map toDE = core.join ++ s.cur := g4.symm
        rw [hcur] at hdes
        obtain ⟨hA, hB⟩ := layout_get core [] (cm'.map toDE) g5 (by simp [epa_eq]) hdes
        by_cases hlast : lastMergeable rops = true
        · -- terminator area pushed inside the loop
          have hT : TermCond 0 rops := ⟨hlast, by simpa using hdvd, hmpos⟩
          rw [if_pos hT] at g3
          constructor
          · rw [g3, if_neg hm0, if_pos ⟨hdvd, hlast⟩]
            simp only [List.length_append, List.length_singleton]
            rw [epa_eq] at hlen0 ⊢
            omega
          · intro k hk
            rw [g3] at hk ⊢
            rw [g1, show zeroArea = padArea ([] : List DiskException) from rfl]
            apply hA
            simpa using hk
        · -- stream does not end on a mergeable op: no terminator
          have hT : ¬ TermCond 0 rops := fun hT => hlast hT.1
          rw [if_neg hT, List.append_nil] at g3
          constructor
          · rw [g3, if_neg hm0, if_neg (fun hand => hlast hand.2)]
            rw [epa_eq] at hlen0 ⊢
            omega
          · intro k hk
            rw [g3] at hk ⊢
            rw [g1]
            exact hB k hk
      · -- partially filled final area: pushed after the loop
        rw [if_pos (Or.inl hc0)] at h
        cases h
        have hndvd : ¬ exceptions_per_area ∣ countM rops := by
          rw [epa_eq] at hlen0 g6 ⊢
          omega
        have hT : ¬ TermCond 0 rops := fun hT => hndvd (by simpa using hT.2.1)
        rw [if_neg hT, List.append_nil] at g3
        have hdes : cm'.map toDE = core.join ++ s0.cur := g4.symm
        obtain ⟨hA, hB⟩ := layout_get core s0.cur (cm'.map toDE) g5 g6 hdes
        constructor
        · show (s0.vec ++ [padArea s0.cur]).length = _
          rw [g3, if_neg hm0, if_neg (fun hand => hndvd hand.1)]
          simp only [List.length_append, List.length_singleton]
          rw [epa_eq] at hlen0 g6 ⊢
          omega
        · intro k hk
          show (s0.vec ++ [padArea s0.cur])[k]? = _
          rw [g3, g1]
          have hk2 : k < (s0.vec ++ [padArea s0.cur]).length := hk
          rw [g3] at hk2
          exact hA k hk2

end Snapuserd

namespace Snapuserd

/-- C6 (counterexample): with exactly 256 mergeable ops and the reverse
iterator exhausted right at the fill, the loop pushes the filled area AND
an extra all-zero terminator area, so the area vector holds 2 areas while
the claim's `ceil(n / 256)` predicts `(256 + 255) / 256 = 1`. -/
theorem C6_counterexample :
    (ReadMetadata (List.replicate 256 zOp)).map (fun s => s.vec.length) = some 2 ∧
    countM (List.replicate 256 zOp) = 256 ∧
    (256 + (exceptions_per_area - 1)) / exceptions_per_area = 1 := by
  refine ⟨?_, ?_, by decide⟩
  · set_option maxRecDepth 100000 in decide
  · set_option maxRecDepth 4000 in decide

theorem C6_witness :
    ((ReadMetadata [zOp]).get (by decide)).vec.length = 1 := by
  have h := (C6_area_vector [zOp] ((ReadMetadata [zOp]).get (by decide))
    (Option.some_get (by decide)).symm).1
  rw [h]
  decide

end Snapuserd
